import Mathlib

/-!
Shallow embedding of the coverage estimator and the autotune binary search of
`qrcode_plain.py` (repository `ercasta/qrcode-logo`), together with proofs of
the specification claims about them.

External collaborators (the `qrcode` encoder, PIL image handling, the OpenCV
decoder) are modelled as parameters or, where the specification fixes their
behaviour, as definitions whose doc comment starts with "Modelled from the
spec".  The module matrix returned by the external encoder only contributes
its side length `N` to the functions verified here, so `N` is passed as a
plain parameter in place of the payload string.
-/

/-- Python `int(...)` applied to a real value: truncation toward zero. -/
def pyInt (q : ℚ) : ℤ := if 0 ≤ q then ⌊q⌋ else ⌈q⌉

/-- A logo image as far as the geometry is concerned: its pixel dimensions
(PIL `Image.open(...).size`). -/
structure Logo where
  w : ℕ
  h : ℕ

/-- Modelled from the spec: PIL's `Image.thumbnail((m, m), LANCZOS)` (external
library code, not under `src/`) for the square bounding box used at both call
sites, following spec section 4.1: shrink to fit within the bounding box
preserving the aspect ratio, never upscale; a logo already inside the box
keeps its original size. -/
def thumbnailFit (lw lh : ℕ) (m : ℤ) : ℤ × ℤ :=
  if (lw : ℤ) ≤ m ∧ (lh : ℤ) ≤ m then ((lw : ℤ), (lh : ℤ))
  else ((lw : ℤ) * m / (max lw lh : ℕ), (lh : ℤ) * m / (max lw lh : ℕ))

/-- Rendered image edge length in pixels (`qrcode_plain.py` line 101):
`img_w = module_count * box_size + 2 * border * box_size`. -/
def imagePixels (N bs border : ℕ) : ℕ := N * bs + 2 * border * bs

/-- Centre pixel coordinate of module index `i` (lines 119-120):
`border * box_size + i * box_size + box_size / 2`; the Python float division
by 2 is exact and is modelled in `ℚ`. -/
def moduleCenter (bs border i : ℕ) : ℚ :=
  (border : ℚ) * (bs : ℚ) + (i : ℚ) * (bs : ℚ) + (bs : ℚ) / 2

/-- Coverage test of line 121: the centre coordinate lies between the logo
edge and the logo edge plus the logo extent, both bounds inclusive. -/
def hitsLogo (pos len : ℤ) (x : ℚ) : Prop :=
  (pos : ℚ) ≤ x ∧ x ≤ (pos : ℚ) + (len : ℚ)

instance (pos len : ℤ) (x : ℚ) : Decidable (hitsLogo pos len x) :=
  inferInstanceAs (Decidable (((pos : ℚ) ≤ x) ∧ (x ≤ (pos : ℚ) + (len : ℚ))))

/-- The double counting loop of lines 117-122. -/
def coveredLoop (N bs border : ℕ) (posx posy lx ly : ℤ) : ℕ :=
  Finset.sum (Finset.range N) fun r =>
    Finset.sum (Finset.range N) fun c =>
      if hitsLogo posx lx (moduleCenter bs border c) ∧ hitsLogo posy ly (moduleCenter bs border r)
      then 1 else 0

/-- The triple returned by `estimate_coverage`:
`(covered, total_modules, coverage_pct)`. -/
structure CoverageResult where
  covered : ℕ
  total : ℕ
  pct : ℚ

/-- The thumbnailed logo extent `(lx, ly)` of lines 107-111: the original
logo dimensions shrunk to fit the square box `int(img_w * logo_scale)`. -/
def logoDims (N bs border : ℕ) (l : Logo) (logo_scale : ℚ) : ℤ × ℤ :=
  thumbnailFit l.w l.h (pyInt ((imagePixels N bs border : ℚ) * logo_scale))

/-- The centred paste position `(posx, posy)` of lines 112-113:
`(img_w - lx) // 2` and `(img_h - ly) // 2` (Python floor division; for the
positive divisor 2 Lean's integer `/` agrees with it). -/
def logoPos (N bs border : ℕ) (l : Logo) (logo_scale : ℚ) : ℤ × ℤ :=
  (((imagePixels N bs border : ℤ) - (logoDims N bs border l logo_scale).1) / 2,
   ((imagePixels N bs border : ℤ) - (logoDims N bs border l logo_scale).2) / 2)

/-- `estimate_coverage` (lines 88-126).  The logo argument is `none` exactly
when no path is supplied or the file does not exist (the check of line 104);
`logo_scale` is the Python float argument, modelled in `ℚ`. -/
def estimate_coverage (N bs border : ℕ) (logo : Option Logo) (logo_scale : ℚ) : CoverageResult :=
  match logo with
  | none => ⟨0, N * N, 0⟩
  | some l =>
    let dims := logoDims N bs border l logo_scale
    let pos := logoPos N bs border l logo_scale
    let covered := coveredLoop N bs border pos.1 pos.2 dims.1 dims.2
    ⟨covered, N * N, (covered : ℚ) / ((N : ℚ) * (N : ℚ)) * 100⟩

/-- Observable geometry of the image produced by `make_qr_image`
(lines 19-76): the square image size and the pasted logo rectangle (position
and extent), `none` when the overlay is skipped by the check of line 39. -/
structure RenderedImage where
  size : ℕ
  overlay : Option (ℤ × ℤ × ℤ × ℤ)

/-- `make_qr_image` (lines 19-76), reduced to its geometric observables. -/
def make_qr_image (N bs border : ℕ) (logo : Option Logo) (logo_scale : ℚ) : RenderedImage :=
  match logo with
  | none => ⟨imagePixels N bs border, none⟩
  | some l =>
    ⟨imagePixels N bs border,
     some ((logoPos N bs border l logo_scale).1, (logoPos N bs border l logo_scale).2,
           (logoDims N bs border l logo_scale).1, (logoDims N bs border l logo_scale).2)⟩

/-- Inputs of `find_max_logo_scale` (line 129).  `decode_image` is the
external OpenCV decoder applied to the candidate rendered at a given scale
(the scale determines the candidate image once the other inputs are fixed);
it returns the decoded text, `""` when decoding fails. -/
structure SearchParams where
  N : ℕ
  box_size : ℕ
  border : ℕ
  logo : Option Logo
  decode_image : ℚ → String
  start : ℚ
  tol : ℚ
  max_scale : ℚ
  min_ecc_left : Option ℚ

/-- Mutable state of the while loop of lines 151-180, instrumented with the
number of candidate renders, decode calls and the list of scales actually
rendered and decoded. -/
structure SearchState where
  low : ℚ
  high : ℚ
  best : Option ℚ
  iterations : ℕ
  renders : ℕ
  decode_calls : ℕ
  tested : List ℚ

/-- Lines 169-180: render the candidate at `mid` to a temporary file, decode
it, and move the matching bound. -/
def decodeBranch (p : SearchParams) (st : SearchState) (mid : ℚ) : SearchState :=
  let st' := { st with
    renders := st.renders + 1
    decode_calls := st.decode_calls + 1
    tested := mid :: st.tested }
  if p.decode_image mid ≠ "" then
    { st' with best := some mid, low := mid, iterations := st'.iterations + 1 }
  else
    { st' with high := mid, iterations := st'.iterations + 1 }

/-- One iteration of the while loop body (lines 159-180): compute the
midpoint, pre-filter it with `estimate_coverage` against the coverage ceiling
when one applies, and otherwise render and decode it. -/
def searchStep (p : SearchParams) (allowed : Option ℚ) (st : SearchState) : SearchState :=
  let mid := (st.low + st.high) / 2
  let cov := estimate_coverage p.N p.box_size p.border p.logo mid
  match allowed with
  | some a =>
    if cov.pct > a then { st with high := mid, iterations := st.iterations + 1 }
    else decodeBranch p st mid
  | none => decodeBranch p st mid

/-- The while loop of line 158: `while (high - low) > tol and iterations < 50`.
The fuel argument only justifies the recursion in Lean; `find_max_logo_scale`
supplies fuel 50 with the iteration counter starting at 0, so the fuel can
never run out strictly before the `iterations < 50` guard fails. -/
def searchLoop (p : SearchParams) (allowed : Option ℚ) (tolEff : ℚ) :
    ℕ → SearchState → SearchState
  | 0, st => st
  | Nat.succ fuel, st =>
    if tolEff < st.high - st.low ∧ st.iterations < 50 then
      searchLoop p allowed tolEff fuel (searchStep p allowed st)
    else st

/-- Observable outcome of one `find_max_logo_scale` run: the returned value
(line 189) together with the instrumentation and whether the final image was
written (line 182-184). -/
structure SearchOutcome where
  result : Option ℚ
  iterations : ℕ
  renders : ℕ
  decode_calls : ℕ
  tested : List ℚ
  wrote_final : Bool

/-- Lines 151-189 after the feasibility check: run the bounded binary search
on `[start, max_scale]` with effective tolerance `max tol 0.001` (line 156),
then write the final image only when the best scale is truthy (line 182;
Python truthiness makes `0.0` false). -/
def runSearch (p : SearchParams) (allowed : Option ℚ) : SearchOutcome :=
  let final := searchLoop p allowed (max p.tol 0.001) 50
    ⟨p.start, p.max_scale, none, 0, 0, 0, []⟩
  ⟨final.best, final.iterations, final.renders, final.decode_calls, final.tested,
    match final.best with
    | some b => decide (b ≠ 0)
    | none => false⟩

/-- ECC capacity at level H (lines 134-140): `ecc_capacity.get(H, 30) = 30`
percent. -/
def ecc_percent : ℚ := 30

/-- `find_max_logo_scale` (lines 129-189): the feasibility check of lines
142-149 either returns immediately with no search, or fixes the coverage
ceiling `ecc_percent - min_ecc_left` and runs the binary search. -/
def find_max_logo_scale (p : SearchParams) : SearchOutcome :=
  match p.min_ecc_left with
  | some v =>
    if ecc_percent ≤ v then ⟨none, 0, 0, 0, [], false⟩
    else runSearch p (some (ecc_percent - v))
  | none => runSearch p none

/-- CLI default of `--autotune-min-ecc` (line 201 of `qrcode_plain.py`):
`default=0.15`. -/
def autotune_min_ecc_default : ℚ := 0.15

/-- The coverage computation exactly as claim C1 and spec section 4.1 state
it: the image size is `N*box_size + 2*border*box_size`; the logo is
thumbnailed to fit within the square `scale * imagePixels`; it is centred; a
module `(row, col)` counts as covered iff its centre pixel
`border*box_size + col*box_size + box_size/2` (symmetrically for the row)
lies within the logo rectangle with inclusive bounds on all four edges; the
percentage is `covered / (N*N) * 100`. -/
def coverageSpec (N bs border : ℕ) (l : Logo) (scale : ℚ) : CoverageResult :=
  let imgPx : ℕ := N * bs + 2 * border * bs
  let dims := thumbnailFit l.w l.h (pyInt ((imgPx : ℚ) * scale))
  let posx : ℤ := ((imgPx : ℤ) - dims.1) / 2
  let posy : ℤ := ((imgPx : ℤ) - dims.2) / 2
  let covered := ((Finset.range N ×ˢ Finset.range N).filter fun rc =>
    hitsLogo posx dims.1 (moduleCenter bs border rc.2) ∧
    hitsLogo posy dims.2 (moduleCenter bs border rc.1)).card
  ⟨covered, N * N, (covered : ℚ) / ((N : ℚ) * (N : ℚ)) * 100⟩

/-- Invariant of the binary-search state: the window stays inside
`[start, max_scale]` and any recorded best scale was rendered and decoded at
a strict interior midpoint. -/
def searchInv (p : SearchParams) (st : SearchState) : Prop :=
  p.start ≤ st.low ∧ st.high ≤ p.max_scale ∧
  ∀ b : ℚ, st.best = some b →
    b ∈ st.tested ∧ p.start < b ∧ b ≤ st.low ∧ b < st.high ∧ p.decode_image b ≠ ""

/-- Concrete infeasible-constraint run: `min_ecc_left = 35 ≥ 30`. -/
def runInfeasible : SearchParams :=
  ⟨21, 10, 6, none, fun _ => "", 1/20, 1/100, 3/5, some 35⟩

/-- Concrete run whose decoder never succeeds, so the search completes with
no feasible scale. -/
def runNoFeasible : SearchParams :=
  ⟨2, 10, 0, none, fun _ => "", 1/20, 3/10, 9/10, none⟩

/-- Concrete run whose decoder always succeeds, so the search returns a
scale after one interior midpoint. -/
def runFeasible : SearchParams :=
  ⟨2, 10, 0, none, fun _ => "ok", 1/20, 1/2, 3/5, none⟩

/-- Concrete run with a coverage ceiling (`min_ecc_left = 20`, so at most 10
percent coverage is allowed) and a 40 by 40 logo on a tiny symbol. -/
def runCeiling : SearchParams :=
  ⟨2, 10, 0, some ⟨40, 40⟩, fun _ => "ok", 1/20, 3/10, 9/10, some 20⟩

/-- The counting double loop equals the cardinality of the set of covered
module cells. -/
theorem coveredLoop_eq_card (N bs border : ℕ) (posx posy lx ly : ℤ) :
    coveredLoop N bs border posx posy lx ly =
      ((Finset.range N ×ˢ Finset.range N).filter fun rc =>
        hitsLogo posx lx (moduleCenter bs border rc.2) ∧
        hitsLogo posy ly (moduleCenter bs border rc.1)).card := by
  rw [Finset.card_filter, Finset.sum_product]
  rfl

/-- Unfolding lemma for `estimate_coverage` on a present logo. -/
theorem estimate_coverage_some (N bs border : ℕ) (l : Logo) (s : ℚ) :
    estimate_coverage N bs border (some l) s =
      ⟨coveredLoop N bs border (logoPos N bs border l s).1 (logoPos N bs border l s).2
        (logoDims N bs border l s).1 (logoDims N bs border l s).2,
       N * N,
       (coveredLoop N bs border (logoPos N bs border l s).1 (logoPos N bs border l s).2
        (logoDims N bs border l s).1 (logoDims N bs border l s).2 : ℚ) /
          ((N : ℚ) * (N : ℚ)) * 100⟩ := rfl

/-- C1: for every payload (entering through the side length `N` of the
encoded module matrix), box size, border, scale and existing logo,
`estimate_coverage` computes the image size `N*box_size + 2*border*box_size`,
thumbnails the logo to fit within the square `scale * imagePixels`, centres
it, counts a module as covered exactly when its centre pixel lies within the
logo rectangle with inclusive bounds, and returns
`coveragePct = covered/(N*N)*100` — i.e. it agrees with the specification
computation `coverageSpec`. -/
theorem c1_estimate_coverage_matches_spec (N bs border : ℕ) (l : Logo) (scale : ℚ) :
    estimate_coverage N bs border (some l) scale = coverageSpec N bs border l scale := by
  rw [estimate_coverage_some]
  unfold coverageSpec logoPos logoDims imagePixels
  rw [coveredLoop_eq_card]

/-- C7: with no logo path supplied, or a missing logo file (both modelled by
the `none` logo argument, mirroring the check `logo_path and
os.path.exists(logo_path)`), `estimate_coverage` returns exactly
`(0, N*N, 0.0)` and `make_qr_image` skips the overlay entirely; both
functions still return normally. -/
theorem c7_missing_logo_graceful (N bs border : ℕ) (scale : ℚ) :
    estimate_coverage N bs border none scale = ⟨0, N * N, 0⟩ ∧
    (make_qr_image N bs border none scale).overlay = none :=
  ⟨rfl, rfl⟩

/-- Truncation agrees with the floor on non-negative arguments and is
monotone there. -/
theorem pyInt_mono {a b : ℚ} (ha : 0 ≤ a) (hab : a ≤ b) : pyInt a ≤ pyInt b := by
  unfold pyInt
  rw [if_pos ha, if_pos (ha.trans hab)]
  exact Int.floor_mono hab

theorem pyInt_nonneg {a : ℚ} (ha : 0 ≤ a) : 0 ≤ pyInt a := by
  unfold pyInt
  rw [if_pos ha]
  exact Int.le_floor.mpr (by exact_mod_cast ha)

/-- The thumbnail of a square box of non-negative edge has non-negative
extents. -/
theorem thumbnailFit_nonneg (lw lh : ℕ) {m : ℤ} (hm : 0 ≤ m) :
    0 ≤ (thumbnailFit lw lh m).1 ∧ 0 ≤ (thumbnailFit lw lh m).2 := by
  unfold thumbnailFit
  split
  · exact ⟨Int.natCast_nonneg lw, Int.natCast_nonneg lh⟩
  · constructor
    · exact Int.ediv_nonneg (mul_nonneg (Int.natCast_nonneg lw) hm) (Int.natCast_nonneg _)
    · exact Int.ediv_nonneg (mul_nonneg (Int.natCast_nonneg lh) hm) (Int.natCast_nonneg _)

/-- The thumbnail extents are monotone in the bounding-box edge. -/
theorem thumbnailFit_mono (lw lh : ℕ) {m1 m2 : ℤ} (h1 : 0 ≤ m1) (h12 : m1 ≤ m2) :
    (thumbnailFit lw lh m1).1 ≤ (thumbnailFit lw lh m2).1 ∧
    (thumbnailFit lw lh m1).2 ≤ (thumbnailFit lw lh m2).2 := by
  unfold thumbnailFit
  by_cases hk1 : (lw : ℤ) ≤ m1 ∧ (lh : ℤ) ≤ m1
  · rw [if_pos hk1, if_pos ⟨hk1.1.trans h12, hk1.2.trans h12⟩]
    exact ⟨le_refl _, le_refl _⟩
  · have hL : m1 < ((max lw lh : ℕ) : ℤ) := by
      rcases not_and_or.mp hk1 with h | h
      · exact lt_of_lt_of_le (not_le.mp h) (by exact_mod_cast Nat.le_max_left lw lh)
      · exact lt_of_lt_of_le (not_le.mp h) (by exact_mod_cast Nat.le_max_right lw lh)
    have hLpos : (0 : ℤ) < ((max lw lh : ℕ) : ℤ) := lt_of_le_of_lt h1 hL
    rw [if_neg hk1]
    by_cases hk2 : (lw : ℤ) ≤ m2 ∧ (lh : ℤ) ≤ m2
    · rw [if_pos hk2]
      constructor
      · calc (lw : ℤ) * m1 / ((max lw lh : ℕ) : ℤ)
            ≤ (lw : ℤ) * ((max lw lh : ℕ) : ℤ) / ((max lw lh : ℕ) : ℤ) :=
              Int.ediv_le_ediv hLpos (mul_le_mul_of_nonneg_left hL.le (Int.natCast_nonneg lw))
          _ = (lw : ℤ) := Int.mul_ediv_cancel _ (ne_of_gt hLpos)
      · calc (lh : ℤ) * m1 / ((max lw lh : ℕ) : ℤ)
            ≤ (lh : ℤ) * ((max lw lh : ℕ) : ℤ) / ((max lw lh : ℕ) : ℤ) :=
              Int.ediv_le_ediv hLpos (mul_le_mul_of_nonneg_left hL.le (Int.natCast_nonneg lh))
          _ = (lh : ℤ) := Int.mul_ediv_cancel _ (ne_of_gt hLpos)
    · rw [if_neg hk2]
      exact ⟨Int.ediv_le_ediv hLpos (mul_le_mul_of_nonneg_left h12 (Int.natCast_nonneg lw)),
             Int.ediv_le_ediv hLpos (mul_le_mul_of_nonneg_left h12 (Int.natCast_nonneg lh))⟩

/-- A bounding box of edge 0 degenerates the thumbnail to a point. -/
theorem thumbnailFit_zero (lw lh : ℕ) : thumbnailFit lw lh 0 = (0, 0) := by
  unfold thumbnailFit
  split
  · next h =>
    have h1 : (lw : ℤ) = 0 := le_antisymm h.1 (Int.natCast_nonneg lw)
    have h2 : (lh : ℤ) = 0 := le_antisymm h.2 (Int.natCast_nonneg lh)
    rw [h1, h2]
  · simp

/-- Centred placement: the right edge of the pasted rectangle is
`(W + len) / 2`. -/
theorem pos_add_len (W len : ℤ) : (W - len) / 2 + len = (W + len) / 2 := by
  have h := Int.add_mul_ediv_right (W - len) len (show (2 : ℤ) ≠ 0 by norm_num)
  rw [show W - len + len * 2 = W + len by ring] at h
  exact h.symm

/-- A point covered by a nested rectangle is covered by the enclosing one. -/
theorem hitsLogo_mono {pos1 len1 pos2 len2 : ℤ} (h1 : pos2 ≤ pos1)
    (h2 : pos1 + len1 ≤ pos2 + len2) {x : ℚ} (h : hitsLogo pos1 len1 x) :
    hitsLogo pos2 len2 x := by
  obtain ⟨ha, hb⟩ := h
  constructor
  · exact le_trans (by exact_mod_cast h1) ha
  · refine le_trans hb ?_
    have hq : ((pos1 + len1 : ℤ) : ℚ) ≤ ((pos2 + len2 : ℤ) : ℚ) := by exact_mod_cast h2
    push_cast at hq
    linarith

/-- The covered-module count is monotone under rectangle enclosure. -/
theorem coveredLoop_mono (N bs border : ℕ) {posx1 posy1 lx1 ly1 posx2 posy2 lx2 ly2 : ℤ}
    (hx : posx2 ≤ posx1) (hy : posy2 ≤ posy1)
    (hx' : posx1 + lx1 ≤ posx2 + lx2) (hy' : posy1 + ly1 ≤ posy2 + ly2) :
    coveredLoop N bs border posx1 posy1 lx1 ly1 ≤ coveredLoop N bs border posx2 posy2 lx2 ly2 := by
  rw [coveredLoop_eq_card, coveredLoop_eq_card]
  apply Finset.card_le_card
  intro rc hrc
  rw [Finset.mem_filter] at hrc ⊢
  exact ⟨hrc.1, hitsLogo_mono hx hx' hrc.2.1, hitsLogo_mono hy hy' hrc.2.2⟩

/-- C5: with the geometry fixed, both the covered-module count and the
coverage percentage returned by `estimate_coverage` are monotonically
non-decreasing in the (non-negative) scale. -/
theorem c5_coverage_monotone (N bs border : ℕ) (l : Logo) (s1 s2 : ℚ)
    (h0 : 0 ≤ s1) (h12 : s1 < s2) :
    (estimate_coverage N bs border (some l) s1).covered ≤
      (estimate_coverage N bs border (some l) s2).covered ∧
    (estimate_coverage N bs border (some l) s1).pct ≤
      (estimate_coverage N bs border (some l) s2).pct := by
  have hW : (0 : ℚ) ≤ (imagePixels N bs border : ℚ) := by positivity
  have hWs : (0 : ℚ) ≤ (imagePixels N bs border : ℚ) * s1 := mul_nonneg hW h0
  have hm1 : 0 ≤ pyInt ((imagePixels N bs border : ℚ) * s1) := pyInt_nonneg hWs
  have hmono : pyInt ((imagePixels N bs border : ℚ) * s1) ≤
      pyInt ((imagePixels N bs border : ℚ) * s2) :=
    pyInt_mono hWs (mul_le_mul_of_nonneg_left h12.le hW)
  have hd := thumbnailFit_mono l.w l.h hm1 hmono
  have hcov : (estimate_coverage N bs border (some l) s1).covered ≤
      (estimate_coverage N bs border (some l) s2).covered := by
    rw [estimate_coverage_some, estimate_coverage_some]
    unfold logoPos logoDims
    apply coveredLoop_mono
    · exact Int.ediv_le_ediv (by norm_num) (by linarith [hd.1])
    · exact Int.ediv_le_ediv (by norm_num) (by linarith [hd.2])
    · rw [pos_add_len, pos_add_len]
      exact Int.ediv_le_ediv (by norm_num) (by linarith [hd.1])
    · rw [pos_add_len, pos_add_len]
      exact Int.ediv_le_ediv (by norm_num) (by linarith [hd.2])
  refine ⟨hcov, ?_⟩
  rw [estimate_coverage_some, estimate_coverage_some]
  apply mul_le_mul_of_nonneg_right _ (by norm_num)
  apply div_le_div_of_nonneg_right _ (by positivity)
  exact_mod_cast hcov

/-- Witness for C5 at a concrete geometry and scale pair. -/
theorem c5_coverage_monotone_witness :
    (estimate_coverage 2 10 0 (some ⟨40, 40⟩) (1/4)).covered ≤
      (estimate_coverage 2 10 0 (some ⟨40, 40⟩) (1/2)).covered ∧
    (estimate_coverage 2 10 0 (some ⟨40, 40⟩) (1/4)).pct ≤
      (estimate_coverage 2 10 0 (some ⟨40, 40⟩) (1/2)).pct :=
  c5_coverage_monotone 2 10 0 ⟨40, 40⟩ (1/4) (1/2) (by norm_num) (by norm_num)

/-- Module centres with a positive box size are pairwise distinct. -/
theorem moduleCenter_inj {bs : ℕ} (hbs : 0 < bs) (border : ℕ) {i j : ℕ}
    (h : moduleCenter bs border i = moduleCenter bs border j) : i = j := by
  unfold moduleCenter at h
  have hbsQ : ((bs : ℚ)) ≠ 0 := Nat.cast_ne_zero.mpr hbs.ne'
  have h' : (i : ℚ) * (bs : ℚ) = (j : ℚ) * (bs : ℚ) := by linarith
  have : (i : ℚ) = (j : ℚ) := mul_right_cancel₀ hbsQ h'
  exact_mod_cast this

/-- At scale 0 the thumbnailed extent degenerates to `(0, 0)`. -/
theorem logoDims_zero (N bs border : ℕ) (l : Logo) :
    logoDims N bs border l 0 = (0, 0) := by
  unfold logoDims
  rw [mul_zero, show pyInt 0 = 0 by unfold pyInt; norm_num]
  exact thumbnailFit_zero l.w l.h

/-- C6 counterexample: at `N = 3`, `box_size = 2`, `border = 1` and a 5 by 5
logo, `estimate_coverage` at scale 0 counts the centre module (its centre
pixel coincides with the degenerate rectangle at the image centre, and the
bounds are inclusive), so the covered count is 1, not 0. -/
theorem c6_counterexample :
    (estimate_coverage 3 2 1 (some ⟨5, 5⟩) 0).covered = 1 ∧
    (estimate_coverage 3 2 1 (some ⟨5, 5⟩) 0).covered ≠ 0 := by
  have h : (estimate_coverage 3 2 1 (some ⟨5, 5⟩) 0).covered = 1 := by
    norm_num [estimate_coverage, logoDims, logoPos, imagePixels, thumbnailFit, pyInt,
      coveredLoop, moduleCenter, hitsLogo, Finset.sum_range_succ, Finset.sum_range_zero,
      -Finset.sum_boole]
  exact ⟨h, by rw [h]; norm_num⟩

/-- C6 amended: at scale 0 (with a positive box size) the degenerate
rectangle can cover at most the single module whose centre pixel coincides
exactly with the image centre point, so the covered count is at most 1. -/
theorem c6_scale_zero_covers_at_most_one (N bs border : ℕ) (l : Logo) (hbs : 0 < bs) :
    (estimate_coverage N bs border (some l) 0).covered ≤ 1 := by
  rw [estimate_coverage_some, coveredLoop_eq_card]
  apply Finset.card_le_one.mpr
  intro a ha b hb
  rw [Finset.mem_filter] at ha hb
  have hdz := logoDims_zero N bs border l
  have key : ∀ rc : ℕ × ℕ,
      hitsLogo (logoPos N bs border l 0).1 (logoDims N bs border l 0).1
        (moduleCenter bs border rc.2) ∧
      hitsLogo (logoPos N bs border l 0).2 (logoDims N bs border l 0).2
        (moduleCenter bs border rc.1) →
      moduleCenter bs border rc.2 = (((logoPos N bs border l 0).1 : ℤ) : ℚ) ∧
      moduleCenter bs border rc.1 = (((logoPos N bs border l 0).2 : ℤ) : ℚ) := by
    intro rc hrc
    obtain ⟨⟨hx1, hx2⟩, ⟨hy1, hy2⟩⟩ := hrc
    rw [hdz] at hx2 hy2
    constructor
    · exact le_antisymm (by simpa using hx2) hx1
    · exact le_antisymm (by simpa using hy2) hy1
  obtain ⟨hax, hay⟩ := key a ha.2
  obtain ⟨hbx, hby⟩ := key b hb.2
  have h2 : a.2 = b.2 := moduleCenter_inj hbs border (hax.trans hbx.symm)
  have h1 : a.1 = b.1 := moduleCenter_inj hbs border (hay.trans hby.symm)
  exact Prod.ext h1 h2

/-- Witness for the amended C6 at a concrete geometry. -/
theorem c6_scale_zero_covers_at_most_one_witness :
    (estimate_coverage 25 10 6 (some ⟨500, 500⟩) 0).covered ≤ 1 :=
  c6_scale_zero_covers_at_most_one 25 10 6 ⟨500, 500⟩ (by norm_num)

/-- Every executed loop body bumps the iteration counter by exactly one
(both the skip path and the render-and-decode path do). -/
theorem searchStep_iterations (p : SearchParams) (allowed : Option ℚ) (st : SearchState) :
    (searchStep p allowed st).iterations = st.iterations + 1 := by
  rcases allowed with _ | a
  · simp only [searchStep, decodeBranch]
    split <;> rfl
  · simp only [searchStep, decodeBranch]
    split
    · rfl
    · split <;> rfl

/-- The loop guard `iterations < 50` keeps the counter at 50 or below. -/
theorem searchLoop_iterations_le (p : SearchParams) (allowed : Option ℚ) (tolEff : ℚ)
    (fuel : ℕ) : ∀ st : SearchState, st.iterations ≤ 50 →
    (searchLoop p allowed tolEff fuel st).iterations ≤ 50 := by
  induction fuel with
  | zero => exact fun st h => h
  | succ fuel ih =>
    intro st h
    rw [searchLoop]
    split
    · next hg =>
      apply ih
      rw [searchStep_iterations]
      exact hg.2
    · exact h

/-- Once the window has shrunk to the tolerance the loop exits at once. -/
theorem searchLoop_stop (p : SearchParams) (allowed : Option ℚ) (tolEff : ℚ)
    (fuel : ℕ) (st : SearchState) (h : st.high - st.low ≤ tolEff) :
    searchLoop p allowed tolEff fuel st = st := by
  cases fuel with
  | zero => rfl
  | succ fuel =>
    rw [searchLoop, if_neg]
    intro hc
    exact absurd hc.1 (not_lt.mpr h)

/-- C3: the binary search always terminates; it performs at most 50
iterations, and it stops as soon as `high - low ≤ max tol 0.001` (the
effective tolerance fixed on line 156). -/
theorem c3_search_terminates (p : SearchParams) :
    (find_max_logo_scale p).iterations ≤ 50 ∧
    ∀ (allowed : Option ℚ) (fuel : ℕ) (st : SearchState),
      st.high - st.low ≤ max p.tol 0.001 →
      searchLoop p allowed (max p.tol 0.001) fuel st = st := by
  constructor
  · rcases hm : p.min_ecc_left with _ | v
    · have h : find_max_logo_scale p = runSearch p none := by
        unfold find_max_logo_scale
        rw [hm]
      rw [h]
      exact searchLoop_iterations_le p none (max p.tol 0.001) 50 _ (by norm_num)
    · by_cases h30 : ecc_percent ≤ v
      · have h : find_max_logo_scale p = ⟨none, 0, 0, 0, [], false⟩ := by
          unfold find_max_logo_scale
          rw [hm]
          exact if_pos h30
        rw [h]
        norm_num
      · have h : find_max_logo_scale p = runSearch p (some (ecc_percent - v)) := by
          unfold find_max_logo_scale
          rw [hm]
          exact if_neg h30
        rw [h]
        exact searchLoop_iterations_le p _ (max p.tol 0.001) 50 _ (by norm_num)
  · exact fun allowed fuel st h => searchLoop_stop p allowed (max p.tol 0.001) fuel st h

/-- Witness for C3: the default-style parameters, and a window already at
the tolerance, on which the loop is the identity. -/
theorem c3_search_terminates_witness :
    (find_max_logo_scale ⟨21, 10, 6, none, fun _ => "", 1/20, 1/100, 3/5, none⟩).iterations ≤ 50 ∧
    searchLoop ⟨21, 10, 6, none, fun _ => "", 1/20, 1/100, 3/5, none⟩ none
      (max (1/100) 0.001) 7 ⟨1/4, 1/4, none, 3, 3, 3, []⟩ = ⟨1/4, 1/4, none, 3, 3, 3, []⟩ := by
  have h := c3_search_terminates ⟨21, 10, 6, none, fun _ => "", 1/20, 1/100, 3/5, none⟩
  exact ⟨h.1, h.2 none 7 ⟨1/4, 1/4, none, 3, 3, 3, []⟩ (by norm_num)⟩

/-- C2: a supplied `min_ecc_left` of at least the ECC budget 30 makes
`find_max_logo_scale` return the infeasible result (`None`) immediately: no
iteration runs, nothing is rendered or decoded, and no output file is
written. -/
theorem c2_infeasible_short_circuits (p : SearchParams) (v : ℚ)
    (hv : p.min_ecc_left = some v) (h30 : 30 ≤ v) :
    (find_max_logo_scale p).result = none ∧
    (find_max_logo_scale p).iterations = 0 ∧
    (find_max_logo_scale p).renders = 0 ∧
    (find_max_logo_scale p).decode_calls = 0 ∧
    (find_max_logo_scale p).tested = [] ∧
    (find_max_logo_scale p).wrote_final = false := by
  have h : find_max_logo_scale p = ⟨none, 0, 0, 0, [], false⟩ := by
    unfold find_max_logo_scale
    rw [hv]
    exact if_pos h30
  rw [h]
  exact ⟨rfl, rfl, rfl, rfl, rfl, rfl⟩

/-- Witness for C2 at `min_ecc_left = 35`. -/
theorem c2_infeasible_short_circuits_witness :
    (find_max_logo_scale runInfeasible).result = none ∧
    (find_max_logo_scale runInfeasible).iterations = 0 ∧
    (find_max_logo_scale runInfeasible).renders = 0 ∧
    (find_max_logo_scale runInfeasible).decode_calls = 0 ∧
    (find_max_logo_scale runInfeasible).tested = [] ∧
    (find_max_logo_scale runInfeasible).wrote_final = false :=
  c2_infeasible_short_circuits runInfeasible 35 rfl (by norm_num)

/-- C9: the CLI default for `--autotune-min-ecc` evaluates to 0.15, i.e.
0.15 percent under the percent convention of `find_max_logo_scale` (whose
comparisons against 15 and 30 read the value as a percentage), not the 15
percent the help text and the spec state; in particular the default even
trips the below-15-percent reliability warning branch. -/
theorem c9_default_is_a_fraction_not_a_percent :
    autotune_min_ecc_default = 3 / 20 ∧
    autotune_min_ecc_default ≠ 15 ∧
    autotune_min_ecc_default < 15 ∧
    ecc_percent - autotune_min_ecc_default ≠ 15 := by
  refine ⟨by norm_num [autotune_min_ecc_default], ?_, ?_, ?_⟩
  · norm_num [autotune_min_ecc_default]
  · norm_num [autotune_min_ecc_default]
  · norm_num [autotune_min_ecc_default, ecc_percent]

/-- Along the loop, every scale that gets rendered and decoded passed the
coverage pre-filter first. -/
theorem searchLoop_tested_pct (p : SearchParams) (a tolEff : ℚ) (fuel : ℕ) :
    ∀ st : SearchState,
      (∀ s ∈ st.tested, (estimate_coverage p.N p.box_size p.border p.logo s).pct ≤ a) →
      ∀ s ∈ (searchLoop p (some a) tolEff fuel st).tested,
        (estimate_coverage p.N p.box_size p.border p.logo s).pct ≤ a := by
  induction fuel with
  | zero => exact fun st h => h
  | succ fuel ih =>
    intro st h
    rw [searchLoop]
    split
    · apply ih
      intro s hs
      by_cases hgt :
          (estimate_coverage p.N p.box_size p.border p.logo ((st.low + st.high) / 2)).pct > a
      · have hskip : searchStep p (some a) st =
            { st with high := (st.low + st.high) / 2, iterations := st.iterations + 1 } := by
          simp only [searchStep, if_pos hgt]
        rw [hskip] at hs
        exact h s hs
      · have hst : (searchStep p (some a) st).tested = (st.low + st.high) / 2 :: st.tested := by
          simp only [searchStep, if_neg hgt, decodeBranch]
          split <;> rfl
        rw [hst] at hs
        rcases List.mem_cons.mp hs with hq | hq
        · rw [hq]
          exact not_lt.mp hgt
        · exact h s hq
    · exact h

/-- C4: when a coverage ceiling applies (`min_ecc_left` supplied and below
the budget 30), no candidate whose estimated coverage percentage exceeds
`30 - min_ecc_left` is ever rendered or decoded, and on such a candidate one
loop body only shrinks the upper bound to the midpoint and moves on. -/
theorem c4_ceiling_skips_decode (p : SearchParams) (v : ℚ)
    (hv : p.min_ecc_left = some v) (hfeas : v < 30) :
    (∀ s ∈ (find_max_logo_scale p).tested,
        (estimate_coverage p.N p.box_size p.border p.logo s).pct ≤ 30 - v) ∧
    (∀ st : SearchState,
        (estimate_coverage p.N p.box_size p.border p.logo ((st.low + st.high) / 2)).pct
            > 30 - v →
        searchStep p (some (30 - v)) st =
          { st with high := (st.low + st.high) / 2, iterations := st.iterations + 1 }) := by
  constructor
  · have h : find_max_logo_scale p = runSearch p (some (30 - v)) := by
      unfold find_max_logo_scale
      rw [hv]
      exact if_neg (not_le.mpr (show v < ecc_percent from hfeas))
    rw [h]
    exact fun s hs =>
      searchLoop_tested_pct p (30 - v) (max p.tol 0.001) 50 _ (by simp) s hs
  · intro st hgt
    simp only [searchStep, if_pos hgt]

/-- When the decoder never succeeds, no best scale is ever recorded. -/
theorem searchLoop_best_none (p : SearchParams) (allowed : Option ℚ) (tolEff : ℚ)
    (hfail : ∀ s, p.decode_image s = "") (fuel : ℕ) :
    ∀ st : SearchState, st.best = none → (searchLoop p allowed tolEff fuel st).best = none := by
  induction fuel with
  | zero => exact fun st h => h
  | succ fuel ih =>
    intro st h
    rw [searchLoop]
    split
    · apply ih
      have hd : ∀ mid, (decodeBranch p st mid).best = st.best := by
        intro mid
        simp only [decodeBranch]
        rw [if_neg (fun hne => hne (hfail mid))]
      rcases allowed with _ | a
      · simp only [searchStep]
        rw [hd]
        exact h
      · simp only [searchStep]
        split
        · exact h
        · rw [hd]
          exact h
    · exact h

theorem runSearch_result_eq (p : SearchParams) (A : Option ℚ) :
    (runSearch p A).result =
      (searchLoop p A (max p.tol 0.001) 50 ⟨p.start, p.max_scale, none, 0, 0, 0, []⟩).best :=
  rfl

theorem runSearch_wrote_final_of_best_none (p : SearchParams) (A : Option ℚ)
    (hb : (searchLoop p A (max p.tol 0.001) 50
      ⟨p.start, p.max_scale, none, 0, 0, 0, []⟩).best = none) :
    (runSearch p A).wrote_final = false := by
  simp only [runSearch]
  rw [hb]

/-- C8 amended: the infeasible-constraint outcome and the no-feasible-scale
outcome are both surfaced to the caller as the same `None` return value with
no output file written — distinguishable from a successful scale, but not
from one another. -/
theorem c8_both_outcomes_are_none :
    (∀ (p : SearchParams) (v : ℚ), p.min_ecc_left = some v → 30 ≤ v →
        (find_max_logo_scale p).result = none ∧
        (find_max_logo_scale p).wrote_final = false) ∧
    (∀ p : SearchParams, (∀ s, p.decode_image s = "") →
        (find_max_logo_scale p).result = none ∧
        (find_max_logo_scale p).wrote_final = false) := by
  constructor
  · intro p v hv h30
    have h : find_max_logo_scale p = ⟨none, 0, 0, 0, [], false⟩ := by
      unfold find_max_logo_scale
      rw [hv]
      exact if_pos h30
    rw [h]
    exact ⟨rfl, rfl⟩
  · intro p hfail
    have key : ∀ A : Option ℚ,
        (runSearch p A).result = none ∧ (runSearch p A).wrote_final = false := by
      intro A
      have hb : (searchLoop p A (max p.tol 0.001) 50
          ⟨p.start, p.max_scale, none, 0, 0, 0, []⟩).best = none :=
        searchLoop_best_none p A (max p.tol 0.001) hfail 50 _ rfl
      exact ⟨(runSearch_result_eq p A).trans hb, runSearch_wrote_final_of_best_none p A hb⟩
    rcases hm : p.min_ecc_left with _ | v
    · have h : find_max_logo_scale p = runSearch p none := by
        unfold find_max_logo_scale
        rw [hm]
      rw [h]
      exact key none
    · by_cases h30 : ecc_percent ≤ v
      · have h : find_max_logo_scale p = ⟨none, 0, 0, 0, [], false⟩ := by
          unfold find_max_logo_scale
          rw [hm]
          exact if_pos h30
        rw [h]
        exact ⟨rfl, rfl⟩
      · have h : find_max_logo_scale p = runSearch p (some (ecc_percent - v)) := by
          unfold find_max_logo_scale
          rw [hm]
          exact if_neg h30
        rw [h]
        exact key _

/-- The render-and-decode branch preserves the search invariant when taken
at the strict interior midpoint. -/
theorem decodeBranch_inv (p : SearchParams) {st : SearchState}
    (h1 : p.start ≤ st.low) (h2 : st.high ≤ p.max_scale)
    (h3 : ∀ b : ℚ, st.best = some b →
      b ∈ st.tested ∧ p.start < b ∧ b ≤ st.low ∧ b < st.high ∧ p.decode_image b ≠ "")
    (hmid1 : st.low < (st.low + st.high) / 2) (hmid2 : (st.low + st.high) / 2 < st.high) :
    searchInv p (decodeBranch p st ((st.low + st.high) / 2)) := by
  unfold decodeBranch searchInv
  split
  · next hdec =>
    refine ⟨h1.trans hmid1.le, h2, ?_⟩
    intro b hb
    have hbmid : b = (st.low + st.high) / 2 := (Option.some.injEq _ _).mp hb.symm
    subst hbmid
    exact ⟨List.mem_cons_self _ _, lt_of_le_of_lt h1 hmid1, le_refl _, hmid2, hdec⟩
  · next hdec =>
    refine ⟨h1, hmid2.le.trans h2, ?_⟩
    intro b hb
    obtain ⟨hb1, hb2, hb3, hb4, hb5⟩ := h3 b hb
    exact ⟨List.mem_cons_of_mem _ hb1, hb2, hb3, lt_of_le_of_lt hb3 hmid1, hb5⟩

/-- One loop body preserves the search invariant whenever the window is
still open. -/
theorem searchStep_inv (p : SearchParams) (allowed : Option ℚ) {st : SearchState}
    (hlh : st.low < st.high) (hinv : searchInv p st) :
    searchInv p (searchStep p allowed st) := by
  obtain ⟨h1, h2, h3⟩ := hinv
  have hmid1 : st.low < (st.low + st.high) / 2 := by linarith
  have hmid2 : (st.low + st.high) / 2 < st.high := by linarith
  rcases allowed with _ | a
  · simp only [searchStep]
    exact decodeBranch_inv p h1 h2 h3 hmid1 hmid2
  · simp only [searchStep]
    split
    · refine ⟨h1, hmid2.le.trans h2, ?_⟩
      intro b hb
      obtain ⟨hb1, hb2, hb3, hb4, hb5⟩ := h3 b hb
      exact ⟨hb1, hb2, hb3, lt_of_le_of_lt hb3 hmid1, hb5⟩
    · exact decodeBranch_inv p h1 h2 h3 hmid1 hmid2

/-- The loop preserves the search invariant (the effective tolerance is
positive, so the window is open whenever the body runs). -/
theorem searchLoop_inv (p : SearchParams) (allowed : Option ℚ) (tolEff : ℚ)
    (htol : 0 ≤ tolEff) (fuel : ℕ) :
    ∀ st : SearchState, searchInv p st → searchInv p (searchLoop p allowed tolEff fuel st) := by
  induction fuel with
  | zero => exact fun st h => h
  | succ fuel ih =>
    intro st h
    rw [searchLoop]
    split
    · next hg => exact ih _ (searchStep_inv p allowed (by linarith [hg.1]) h)
    · exact h

/-- Facts about any scale returned by one full search run. -/
theorem runSearch_result_props (p : SearchParams) (A : Option ℚ) (s : ℚ)
    (hstart : 0 ≤ p.start) (hres : (runSearch p A).result = some s) :
    s ∈ (runSearch p A).tested ∧ p.start < s ∧ s < p.max_scale ∧ 0 < s ∧
      p.decode_image s ≠ "" := by
  have hres' : (searchLoop p A (max p.tol 0.001) 50
      ⟨p.start, p.max_scale, none, 0, 0, 0, []⟩).best = some s := hres
  have hinv := searchLoop_inv p A (max p.tol 0.001)
    (le_max_of_le_right (by norm_num)) 50
    ⟨p.start, p.max_scale, none, 0, 0, 0, []⟩
    ⟨le_refl _, le_refl _, fun b hb => nomatch hb⟩
  obtain ⟨hL, hH, hB⟩ := hinv
  obtain ⟨m1, m2, m3, m4, m5⟩ := hB s hres'
  exact ⟨m1, m2, lt_of_lt_of_le m4 hH, lt_of_le_of_lt hstart m2, m5⟩

/-- C10: whenever `find_max_logo_scale` returns a scale `s`, that scale was
one of the midpoints actually rendered and decoded during the search, it
lies strictly between `start` and `max_scale` (hence is positive for the
non-negative `start` the tool uses), and the candidate rendered at exactly
`s` decoded to non-empty text. -/
theorem c10_returned_scale_was_tested (p : SearchParams) (s : ℚ)
    (hstart : 0 ≤ p.start) (hres : (find_max_logo_scale p).result = some s) :
    s ∈ (find_max_logo_scale p).tested ∧ p.start < s ∧ s < p.max_scale ∧ 0 < s ∧
      p.decode_image s ≠ "" := by
  rcases hm : p.min_ecc_left with _ | v
  · have h : find_max_logo_scale p = runSearch p none := by
      unfold find_max_logo_scale
      rw [hm]
    rw [h] at hres ⊢
    exact runSearch_result_props p none s hstart hres
  · by_cases h30 : ecc_percent ≤ v
    · have h : find_max_logo_scale p = ⟨none, 0, 0, 0, [], false⟩ := by
        unfold find_max_logo_scale
        rw [hm]
        exact if_pos h30
      rw [h] at hres
      exact absurd hres (by simp)
    · have h : find_max_logo_scale p = runSearch p (some (ecc_percent - v)) := by
        unfold find_max_logo_scale
        rw [hm]
        exact if_neg h30
      rw [h] at hres ⊢
      exact runSearch_result_props p (some (ecc_percent - v)) s hstart hres

/-- One concrete unrolling step of the loop. -/
theorem searchLoop_go (p : SearchParams) (allowed : Option ℚ) (tolEff : ℚ) (fuel : ℕ)
    (st st2 : SearchState) (hg : tolEff < st.high - st.low) (hi : st.iterations < 50)
    (hstep : searchStep p allowed st = st2) :
    searchLoop p allowed tolEff (fuel + 1) st = searchLoop p allowed tolEff fuel st2 := by
  rw [searchLoop, if_pos ⟨hg, hi⟩, hstep]

/-- Concrete evaluation of the never-decoding run: two bisection steps, then
the window closes with no best scale. -/
theorem runNoFeasible_eval :
    find_max_logo_scale runNoFeasible = ⟨none, 2, 2, 2, [21/80, 19/40], false⟩ := by
  have e0 : find_max_logo_scale runNoFeasible = runSearch runNoFeasible none := rfl
  have s1 : searchStep runNoFeasible none ⟨1/20, 9/10, none, 0, 0, 0, []⟩ =
      ⟨1/20, 19/40, none, 1, 1, 1, [19/40]⟩ := by
    norm_num [searchStep, decodeBranch, runNoFeasible]
  have s2 : searchStep runNoFeasible none ⟨1/20, 19/40, none, 1, 1, 1, [19/40]⟩ =
      ⟨1/20, 21/80, none, 2, 2, 2, [21/80, 19/40]⟩ := by
    norm_num [searchStep, decodeBranch, runNoFeasible]
  have h1 : searchLoop runNoFeasible none (max runNoFeasible.tol 0.001) 50 ⟨1/20, 9/10, none, 0, 0, 0, []⟩ = searchLoop runNoFeasible none (max runNoFeasible.tol 0.001) 49 ⟨1/20, 19/40, none, 1, 1, 1, [19/40]⟩ :=
    searchLoop_go _ _ _ 49 _ _ (by norm_num [runNoFeasible]) (by norm_num) s1
  have h2 : searchLoop runNoFeasible none (max runNoFeasible.tol 0.001) 49 ⟨1/20, 19/40, none, 1, 1, 1, [19/40]⟩ = searchLoop runNoFeasible none (max runNoFeasible.tol 0.001) 48 ⟨1/20, 21/80, none, 2, 2, 2, [21/80, 19/40]⟩ :=
    searchLoop_go _ _ _ 48 _ _ (by norm_num [runNoFeasible]) (by norm_num) s2
  have h3 : searchLoop runNoFeasible none (max runNoFeasible.tol 0.001) 48 ⟨1/20, 21/80, none, 2, 2, 2, [21/80, 19/40]⟩ = ⟨1/20, 21/80, none, 2, 2, 2, [21/80, 19/40]⟩ :=
    searchLoop_stop _ _ _ _ _ (by norm_num [runNoFeasible])
  have hloop : searchLoop runNoFeasible none (max runNoFeasible.tol 0.001) 50 ⟨runNoFeasible.start, runNoFeasible.max_scale, none, 0, 0, 0, []⟩ = ⟨1/20, 21/80, none, 2, 2, 2, [21/80, 19/40]⟩ :=
    h1.trans (h2.trans h3)
  rw [e0]
  simp only [runSearch]
  rw [hloop]

/-- C8 counterexample: the infeasible-constraint run and the completed
search that never decoded return the very same value `None` (with the same
absence of an output file), even though the first performed zero iterations
and zero decode calls while the second iterated and decoded; the caller
cannot branch on which of the two failure modes occurred. -/
theorem c8_counterexample :
    (find_max_logo_scale runInfeasible).result = (find_max_logo_scale runNoFeasible).result ∧
    (find_max_logo_scale runInfeasible).wrote_final
      = (find_max_logo_scale runNoFeasible).wrote_final ∧
    (find_max_logo_scale runInfeasible).iterations = 0 ∧
    (find_max_logo_scale runInfeasible).decode_calls = 0 ∧
    (find_max_logo_scale runNoFeasible).iterations = 2 ∧
    (find_max_logo_scale runNoFeasible).decode_calls = 2 := by
  have hA : find_max_logo_scale runInfeasible = ⟨none, 0, 0, 0, [], false⟩ := by
    unfold find_max_logo_scale
    exact if_pos (show ecc_percent ≤ 35 by norm_num [ecc_percent])
  rw [hA, runNoFeasible_eval]
  exact ⟨rfl, rfl, rfl, rfl, rfl, rfl⟩

/-- Witness for the amended C8: both failure modes evaluated. -/
theorem c8_both_outcomes_are_none_witness :
    ((find_max_logo_scale runInfeasible).result = none ∧
     (find_max_logo_scale runInfeasible).wrote_final = false) ∧
    ((find_max_logo_scale runNoFeasible).result = none ∧
     (find_max_logo_scale runNoFeasible).wrote_final = false) :=
  ⟨c8_both_outcomes_are_none.1 runInfeasible 35 rfl (by norm_num),
   c8_both_outcomes_are_none.2 runNoFeasible (fun _ => rfl)⟩

/-- Concrete evaluation of the always-decoding run: one interior midpoint is
tested and returned. -/
theorem runFeasible_eval :
    find_max_logo_scale runFeasible = ⟨some (13/40), 1, 1, 1, [13/40], true⟩ := by
  have e0 : find_max_logo_scale runFeasible = runSearch runFeasible none := rfl
  have s1 : searchStep runFeasible none ⟨1/20, 3/5, none, 0, 0, 0, []⟩ =
      ⟨13/40, 3/5, some (13/40), 1, 1, 1, [13/40]⟩ := by
    norm_num [searchStep, decodeBranch, runFeasible] <;> decide
  have h1 : searchLoop runFeasible none (max runFeasible.tol 0.001) 50 ⟨1/20, 3/5, none, 0, 0, 0, []⟩ = searchLoop runFeasible none (max runFeasible.tol 0.001) 49 ⟨13/40, 3/5, some (13/40), 1, 1, 1, [13/40]⟩ :=
    searchLoop_go _ _ _ 49 _ _ (by norm_num [runFeasible]) (by norm_num) s1
  have h2 : searchLoop runFeasible none (max runFeasible.tol 0.001) 49 ⟨13/40, 3/5, some (13/40), 1, 1, 1, [13/40]⟩ = ⟨13/40, 3/5, some (13/40), 1, 1, 1, [13/40]⟩ :=
    searchLoop_stop _ _ _ _ _ (by norm_num [runFeasible])
  have hloop : searchLoop runFeasible none (max runFeasible.tol 0.001) 50 ⟨runFeasible.start, runFeasible.max_scale, none, 0, 0, 0, []⟩ = ⟨13/40, 3/5, some (13/40), 1, 1, 1, [13/40]⟩ :=
    h1.trans h2
  rw [e0]
  simp only [runSearch]
  rw [hloop]
  norm_num

/-- Witness for C10: the always-decoding run returns `13/40`, which was the
tested midpoint, lies strictly between `start` and `max_scale`, is positive,
and decoded to non-empty text. -/
theorem c10_returned_scale_was_tested_witness :
    (13/40 : ℚ) ∈ (find_max_logo_scale runFeasible).tested ∧
    runFeasible.start < 13/40 ∧ (13/40 : ℚ) < runFeasible.max_scale ∧ (0 : ℚ) < 13/40 ∧
    runFeasible.decode_image (13/40) ≠ "" :=
  c10_returned_scale_was_tested runFeasible (13/40) (by norm_num [runFeasible])
    (by rw [runFeasible_eval])

/-- Concrete evaluation of the run with a coverage ceiling: the first
midpoint (coverage 25 percent, above the allowed 10) is skipped without a
decode; the second midpoint (coverage 0) is decoded and returned. -/
theorem runCeiling_eval :
    find_max_logo_scale runCeiling = ⟨some (21/80), 2, 1, 1, [21/80], true⟩ := by
  have hA : ecc_percent - 20 = (10 : ℚ) := by norm_num [ecc_percent]
  have e0 : find_max_logo_scale runCeiling = runSearch runCeiling (some (ecc_percent - 20)) := by
    unfold find_max_logo_scale
    exact if_neg (by norm_num [ecc_percent])
  have e1 : find_max_logo_scale runCeiling = runSearch runCeiling (some 10) := by
    rw [e0, hA]
  have s1 : searchStep runCeiling (some 10) ⟨1/20, 9/10, none, 0, 0, 0, []⟩ =
      ⟨1/20, 19/40, none, 1, 0, 0, []⟩ := by
    norm_num [searchStep, decodeBranch, runCeiling, estimate_coverage, logoDims, logoPos,
      imagePixels, thumbnailFit, pyInt, coveredLoop, moduleCenter, hitsLogo,
      Finset.sum_range_succ, Finset.sum_range_zero, -Finset.sum_boole] <;> decide
  have s2 : searchStep runCeiling (some 10) ⟨1/20, 19/40, none, 1, 0, 0, []⟩ =
      ⟨21/80, 19/40, some (21/80), 2, 1, 1, [21/80]⟩ := by
    norm_num [searchStep, decodeBranch, runCeiling, estimate_coverage, logoDims, logoPos,
      imagePixels, thumbnailFit, pyInt, coveredLoop, moduleCenter, hitsLogo,
      Finset.sum_range_succ, Finset.sum_range_zero, -Finset.sum_boole] <;> decide
  have h1 : searchLoop runCeiling (some 10) (max runCeiling.tol 0.001) 50 ⟨1/20, 9/10, none, 0, 0, 0, []⟩ = searchLoop runCeiling (some 10) (max runCeiling.tol 0.001) 49 ⟨1/20, 19/40, none, 1, 0, 0, []⟩ :=
    searchLoop_go _ _ _ 49 _ _ (by norm_num [runCeiling]) (by norm_num) s1
  have h2 : searchLoop runCeiling (some 10) (max runCeiling.tol 0.001) 49 ⟨1/20, 19/40, none, 1, 0, 0, []⟩ = searchLoop runCeiling (some 10) (max runCeiling.tol 0.001) 48 ⟨21/80, 19/40, some (21/80), 2, 1, 1, [21/80]⟩ :=
    searchLoop_go _ _ _ 48 _ _ (by norm_num [runCeiling]) (by norm_num) s2
  have h3 : searchLoop runCeiling (some 10) (max runCeiling.tol 0.001) 48 ⟨21/80, 19/40, some (21/80), 2, 1, 1, [21/80]⟩ = ⟨21/80, 19/40, some (21/80), 2, 1, 1, [21/80]⟩ :=
    searchLoop_stop _ _ _ _ _ (by norm_num [runCeiling])
  have hloop : searchLoop runCeiling (some 10) (max runCeiling.tol 0.001) 50 ⟨runCeiling.start, runCeiling.max_scale, none, 0, 0, 0, []⟩ = ⟨21/80, 19/40, some (21/80), 2, 1, 1, [21/80]⟩ :=
    h1.trans (h2.trans h3)
  rw [e1]
  simp only [runSearch]
  rw [hloop]
  norm_num

/-- Witness for C4: in the ceiling run the only decoded scale `21/80` obeys
the ceiling, and one concrete loop body on a midpoint whose coverage (100
percent) exceeds the allowed 10 percent only shrinks the upper bound. -/
theorem c4_ceiling_skips_decode_witness :
    ((estimate_coverage runCeiling.N runCeiling.box_size runCeiling.border runCeiling.logo
        (21/80)).pct ≤ 30 - 20) ∧
    searchStep runCeiling (some (30 - 20)) ⟨1/2, 7/10, none, 0, 0, 0, []⟩ =
      ⟨1/2, (1/2 + 7/10) / 2, none, 0 + 1, 0, 0, []⟩ := by
  have h := c4_ceiling_skips_decode runCeiling 20 rfl (by norm_num)
  refine ⟨h.1 (21/80) ?_, h.2 ⟨1/2, 7/10, none, 0, 0, 0, []⟩ ?_⟩
  · rw [runCeiling_eval]
    simp
  · norm_num [estimate_coverage, runCeiling, logoDims, logoPos, imagePixels, thumbnailFit,
      pyInt, coveredLoop, moduleCenter, hitsLogo, Finset.sum_range_succ,
      Finset.sum_range_zero, -Finset.sum_boole]
